import Mathlib

/-!
Verification of the course-development pipeline in
`src/design/streamlit_course.py`.

The Python source is shallowly embedded: Python `str` becomes Lean `String`
(working over `String.data : List Char` where convenient), fallible calls
(HTTP fetches, LLM completions) become `Except String _` inputs, and the
Python `dict` used for the lesson-plan mapping becomes an association list
with insert-or-overwrite semantics that preserves first-insertion position,
as Python dicts do.

Whitespace and digit classes are modelled over ASCII: Python `str.strip()`
also strips some further Unicode whitespace and `re`'s `\d` also matches
non-ASCII digits, but no claim here depends on characters outside ASCII
classes, and the model is applied consistently on both sides of every
round-trip statement.
-/

/-- ASCII model of the character class stripped by Python `str.strip()`:
space, tab, newline, carriage return, vertical tab, form feed. -/
def isPySpace (c : Char) : Bool :=
  c = ' ' || c = '\t' || c = '\n' || c = '\r' || c = '\x0b' || c = '\x0c'

/-- Python `line.strip()` on a list of characters: drop leading and trailing
whitespace. -/
def pyStripData (l : List Char) : List Char :=
  ((l.dropWhile isPySpace).reverse.dropWhile isPySpace).reverse

/-- Python `s.strip()` on strings (used on every LLM response in the source). -/
def pyStripS (s : String) : String :=
  ⟨pyStripData s.data⟩

/-- Python `s.split("\n")`: split at every newline character; `n` pieces of
text separated by `n - 1` newlines, empty pieces preserved. -/
def splitLinesData : List Char → List (List Char)
  | [] => [[]]
  | c :: cs =>
    if c = '\n' then [] :: splitLinesData cs
    else
      match splitLinesData cs with
      | [] => [[c]]
      | l :: ls => (c :: l) :: ls

/-- The lines of a string, as strings (split on newline). -/
def linesOf (s : String) : List String :=
  (splitLinesData s.data).map (fun l => ⟨l⟩)

/-- Model of `re.match(r"^\d+\.", line)`: one or more leading decimal digits
followed by a period. -/
def matchesNumbered (l : List Char) : Bool :=
  !(l.takeWhile Char.isDigit).isEmpty && (l.dropWhile Char.isDigit).head? == some '.'

/-- Source line 128: `lines = [line.strip() for line in outline.split("\n") if line.strip()]`:
the stripped, non-empty lines of the raw outline. -/
def nonEmptyTrimmedData (l : List Char) : List (List Char) :=
  ((splitLinesData l).map pyStripData).filter (fun p => !p.isEmpty)

/-- Source lines 128-132 of `generate_lesson_plans`: strip and drop empty
lines, keep the lines matching the numbered-module pattern, and fall back to
all non-empty lines when no line matches. -/
def parseOutlineData (l : List Char) : List (List Char) :=
  let lines := nonEmptyTrimmedData l
  let modules := lines.filter matchesNumbered
  if modules.isEmpty then lines else modules

/-- The outline parser at the `String` level. -/
def parseOutline (s : String) : List String :=
  (parseOutlineData s.data).map (fun l => ⟨l⟩)

/-- The stripped non-empty lines of a string, at the `String` level. -/
def nonEmptyTrimmedLines (s : String) : List String :=
  (nonEmptyTrimmedData s.data).map (fun l => ⟨l⟩)

/-- Whether a line matches the leading-digits-plus-period pattern, at the
`String` level. -/
def isNumberedLine (s : String) : Bool :=
  matchesNumbered s.data

/-- Join lines with newline characters (used to state the idempotence claim:
re-feed the parsed modules line by line). -/
def joinNL : List (List Char) → List Char
  | [] => []
  | [p] => p
  | p :: ps => p ++ '\n' :: joinNL ps

/-- String-level join with newlines. -/
def joinLines (ms : List String) : String :=
  ⟨joinNL (ms.map String.data)⟩

/-- Python `", ".join(l)`. -/
def commaJoin : List String → String
  | [] => ""
  | [x] => x
  | x :: xs => x ++ ", " ++ commaJoin xs

/-- Source `combine_external_context` (lines 98-101): the f-string
`"News Headlines: {', '.join(news_articles)}. Research Papers: {', '.join(scholar_papers)}."`. -/
def combineExternalContext (news_articles scholar_papers : List String) : String :=
  "News Headlines: " ++ commaJoin news_articles ++ ". " ++
    "Research Papers: " ++ commaJoin scholar_papers ++ "."

/-- One news article of the decoded NewsAPI JSON payload; the source reads
`article["title"]` from `news_data.get("articles", [])`. -/
structure NewsResponse where
  articles : List String

/-- The decoded Semantic Scholar payload; the source reads `paper["title"]`
from `data.get("data", [])`. -/
structure ScholarResponse where
  data : List String

/-- Source `fetch_external_data` (news half, lines 52-60): the whole
request/decode attempt is the `Except` input; its `try`/`except` returns the
titles on success and `[]` on any exception. -/
def fetchExternalData (resp : Except String NewsResponse) : List String :=
  match resp with
  | Except.ok r => r.articles
  | Except.error _ => []

/-- Source `fetch_semantic_scholar_data` (lines 73-82): titles on success,
`[]` on any exception. -/
def fetchSemanticScholarData (resp : Except String ScholarResponse) : List String :=
  match resp with
  | Except.ok r => r.data
  | Except.error _ => []

/-- The context blob handed to the outline prompt, as assembled by the
pipeline from the two fetch outcomes. -/
def contextOf (nr : Except String NewsResponse) (sr : Except String ScholarResponse) : String :=
  combineExternalContext (fetchExternalData nr) (fetchSemanticScholarData sr)

/-- Decimal digit character (for Python `str(n)` interpolation in f-strings). -/
def digitChar (n : Nat) : Char :=
  match n with
  | 0 => '0' | 1 => '1' | 2 => '2' | 3 => '3' | 4 => '4'
  | 5 => '5' | 6 => '6' | 7 => '7' | 8 => '8' | 9 => '9'
  | _ => '*'

/-- Fuelled most-significant-first decimal digits; fuel `n + 1` always
suffices. Structural in the fuel so that concrete instances compute. -/
def natCharsAux : Nat → Nat → List Char
  | 0, _ => []
  | f + 1, n => if n < 10 then [digitChar n] else natCharsAux f (n / 10) ++ [digitChar (n % 10)]

/-- Python `str(n)` for a natural number. -/
def natStr (n : Nat) : String :=
  ⟨natCharsAux (n + 1) n⟩

/-- Source lines 109-114: the outline prompt f-string of
`generate_course_outline`. -/
def outlinePrompt (external_context subject : String) (module_count : Nat) : String :=
  "Using the following context from recent news and scholar papers trends:\n" ++
    external_context ++ "\n\n" ++
    "Generate a comprehensive course outline on the subject \x27" ++ subject ++
    "\x27 with " ++ natStr module_count ++ " modules. " ++
    "Each module should have a title and a brief description, formatted as a numbered list (e.g., \x271. Module Title: Description\x27)."

/-- Source lines 147-149: the per-module lesson-plan prompt f-string. -/
def lessonPrompt (module : String) : String :=
  "Based on the course module: \x27" ++ module ++
    "\x27, generate a detailed lesson plan. Include key topics, activities, and suggested resources."

/-- Source `generate_course_outline` (lines 107-121): one completion call,
uncaught on failure, `.strip()` applied to the reply. The completion endpoint
is the function argument `llm` from prompt to outcome. -/
def generateCourseOutline (llm : String → Except String String)
    (external_context subject : String) (module_count : Nat) : Except String String :=
  match llm (outlinePrompt external_context subject module_count) with
  | Except.ok reply => Except.ok (pyStripS reply)
  | Except.error e => Except.error e

/-- Python-dict assignment `d[k] = v` on an association list: overwrite in
place if the key exists (keeping its original position), else append. -/
def dictInsert (d : List (String × String)) (k v : String) : List (String × String) :=
  match d with
  | [] => [(k, v)]
  | (k₀, v₀) :: rest => if k₀ = k then (k₀, v) :: rest else (k₀, v₀) :: dictInsert rest k v

/-- Association-list lookup (Python `d[k]`). -/
def lookupD : List (String × String) → String → Option String
  | [], _ => none
  | (k₀, v₀) :: rest, k => if k₀ = k then some v₀ else lookupD rest k

/-- Whether an `Except` outcome is a success. -/
def exceptOk : Except String String → Bool
  | Except.ok _ => true
  | Except.error _ => false

/-- The payload of a successful outcome (arbitrary on error; only ever used
beneath an `exceptOk` hypothesis). -/
def exceptGet : Except String String → String
  | Except.ok r => r
  | Except.error _ => ""

/-- Source lines 145-158, the body of the lesson-plan loop: iteration `i`
issues one completion call (`llm i prompt`, indexed because each loop pass is
a distinct call to the endpoint), strips the reply, and assigns it into the
dict; an uncaught failure aborts the whole loop, discarding the dict built so
far. -/
def lessonLoop (llm : Nat → String → Except String String) :
    Nat → List String → List (String × String) → Except String (List (String × String))
  | _, [], acc => Except.ok acc
  | i, m :: rest, acc =>
    match llm i (lessonPrompt m) with
    | Except.error e => Except.error e
    | Except.ok reply => lessonLoop llm (i + 1) rest (dictInsert acc m (pyStripS reply))

/-- Source `generate_lesson_plans` loop (lines 141-158) over the
user-selected modules, starting from the empty dict. -/
def generateLessonPlans (llm : Nat → String → Except String String)
    (selected_modules : List String) : Except String (List (String × String)) :=
  lessonLoop llm 0 selected_modules []

/-- The pure record of an all-successful loop run (same recursion as
`lessonLoop` with the error branch unreachable). -/
def lessonFold (llm : Nat → String → Except String String) :
    Nat → List String → List (String × String) → List (String × String)
  | _, [], acc => acc
  | i, m :: rest, acc =>
    lessonFold llm (i + 1) rest (dictInsert acc m (pyStripS (exceptGet (llm i (lessonPrompt m)))))

/-- The distinct keys of a Python dict built by assignment from a list, in
first-occurrence order. -/
def firstKeys : List String → List String
  | [] => []
  | m :: rest => m :: (firstKeys rest).filter (fun x => x ≠ m)

/-- The whole flow from the two fetch outcomes to the lesson-plan dict:
`combine_external_context`, `generate_course_outline`, the outline parse of
`generate_lesson_plans`, the multiselect interaction (`select`, mapping the
parsed modules to the list the widget hands back), and the lesson loop. -/
def runCourse (oLLM : String → Except String String)
    (lLLM : Nat → String → Except String String)
    (subject : String) (module_count : Nat)
    (nr : Except String NewsResponse) (sr : Except String ScholarResponse)
    (select : List String → List String) : Except String (List (String × String)) :=
  match generateCourseOutline oLLM (contextOf nr sr) subject module_count with
  | Except.error e => Except.error e
  | Except.ok outline => generateLessonPlans lLLM (select (parseOutline outline))

/-- Hexadecimal digit character, lowercase (Python `"{0:04x}".format`). -/
def hexDigitChar (n : Nat) : Char :=
  match n with
  | 0 => '0' | 1 => '1' | 2 => '2' | 3 => '3' | 4 => '4'
  | 5 => '5' | 6 => '6' | 7 => '7' | 8 => '8' | 9 => '9'
  | 10 => 'a' | 11 => 'b' | 12 => 'c' | 13 => 'd' | 14 => 'e' | 15 => 'f'
  | _ => '*'

/-- Four lowercase hex digits of a code unit below `0x10000`. -/
def hex4 (n : Nat) : List Char :=
  [hexDigitChar (n / 4096 % 16), hexDigitChar (n / 256 % 16),
    hexDigitChar (n / 16 % 16), hexDigitChar (n % 16)]

/-- A `\uXXXX` escape. -/
def uEsc (n : Nat) : List Char :=
  '\\' :: 'u' :: hex4 n

/-- Python `json.dumps` (default `ensure_ascii=True`) escaping of one
character: short escapes for the JSON control names, printable ASCII other
than quote and backslash verbatim, `\uXXXX` otherwise, with a surrogate pair
for code points beyond the basic multilingual plane. -/
def escapeChar (c : Char) : List Char :=
  if c = '"' then ['\\', '"']
  else if c = '\\' then ['\\', '\\']
  else if c = '\n' then ['\\', 'n']
  else if c = '\r' then ['\\', 'r']
  else if c = '\t' then ['\\', 't']
  else if c.toNat = 8 then ['\\', 'b']
  else if c.toNat = 12 then ['\\', 'f']
  else if 0x20 ≤ c.toNat ∧ c.toNat ≤ 0x7e then [c]
  else if c.toNat < 0x10000 then uEsc c.toNat
  else uEsc (0xd800 + (c.toNat - 0x10000) / 1024) ++ uEsc (0xdc00 + (c.toNat - 0x10000) % 1024)

/-- Escape a whole character sequence. -/
def escapeData (l : List Char) : List Char :=
  (l.map escapeChar).flatten

/-- A JSON string literal: quote, escaped body, quote. -/
def jstrData (s : String) : List Char :=
  '"' :: escapeData s.data ++ ['"']

/-- A run of spaces (the `indent=2` layout). -/
def spacesData (n : Nat) : List Char :=
  List.replicate n ' '

/-- One element of the `"modules"` array as `json.dumps(course_data, indent=2)`
prints it: `{"title": m, "lesson_plan": p}` over four lines at nesting
depth 2. -/
def moduleData (m p : String) : List Char :=
  ['\x7b', '\n'] ++ spacesData 6 ++ jstrData "title" ++ [':', ' '] ++ jstrData m ++
    [',', '\n'] ++ spacesData 6 ++ jstrData "lesson_plan" ++ [':', ' '] ++ jstrData p ++
    ['\n'] ++ spacesData 4 ++ ['\x7d']

/-- The separator-prefixed rendering of the remaining module objects: each
contributes `",\n    "` then its object. -/
def sepTailData : List (String × String) → List Char
  | [] => []
  | (m, p) :: rest => [',', '\n'] ++ spacesData 4 ++ moduleData m p ++ sepTailData rest

/-- The module objects separated by `",\n    "`. -/
def sepByData : List (String × String) → List Char
  | [] => []
  | (m, p) :: rest => moduleData m p ++ sepTailData rest

/-- The `"modules"` array: inline `[]` when empty (as `json.dumps` prints
empty containers), otherwise one element per line at indent 4. -/
def modulesData : List (String × String) → List Char
  | [] => ['[', ']']
  | (m, p) :: rest =>
    ['[', '\n'] ++ spacesData 4 ++ sepByData ((m, p) :: rest) ++ ['\n'] ++ spacesData 2 ++ [']']

/-- The characters of `json.dumps(course_data, indent=2)` for
`course_data = {"subject": subject, "modules": [...]}` (source lines
193-205). -/
def courseData (subject : String) (lp : List (String × String)) : List Char :=
  ['\x7b', '\n'] ++ spacesData 2 ++ jstrData "subject" ++ [':', ' '] ++ jstrData subject ++
    [',', '\n'] ++ spacesData 2 ++ jstrData "modules" ++ [':', ' '] ++ modulesData lp ++
    ['\n', '\x7d']

/-- The JSON export string. -/
def jsonDumpsCourse (subject : String) (lp : List (String × String)) : String :=
  ⟨courseData subject lp⟩

/-- One Markdown chunk of the export loop body (source line 209):
`f"## Module {i+1}: {module}\n\n{plan}\n\n"`. -/
def mdChunk (i : Nat) (m p : String) : String :=
  "## Module " ++ natStr (i + 1) ++ ": " ++ m ++ "\n\n" ++ p ++ "\n\n"

/-- The concatenated chunks for entries starting at index `i`. -/
def mdChunksFrom (i : Nat) : List (String × String) → String
  | [] => ""
  | (m, p) :: rest => mdChunk i m p ++ mdChunksFrom (i + 1) rest

/-- The Markdown export (source lines 207-209): the `# {subject} Course
Curriculum` header followed by one chunk per mapping entry in order. -/
def markdownExport (subject : String) (lp : List (String × String)) : String :=
  "# " ++ subject ++ " Course Curriculum" ++ "\n\n" ++ mdChunksFrom 0 lp

/-- Whether a line begins with `"## "`. -/
def isHeadingLine (s : String) : Bool :=
  match s.data with
  | '#' :: '#' :: ' ' :: _ => true
  | _ => false

/-- The text cells of `generate_pdf_content` for entries starting at
number `i`: the `Module {i}: {module}` heading cell then the plan body. -/
def pdfBody (i : Nat) : List (String × String) → List String
  | [] => []
  | (m, p) :: rest => ("Module " ++ natStr i ++ ": " ++ m) :: p :: pdfBody (i + 1) rest

/-- The text content of the PDF export (title cell then the module cells,
numbering from 1 as `enumerate(..., start=1)` does). The binary PDF layout
itself is not modelled; this is the sequence of rendered text blocks. -/
def pdfCells (subject : String) (lp : List (String × String)) : List String :=
  (subject ++ " Course Curriculum") :: pdfBody 1 lp

/-- The export stage of `main` (source lines 190-230): the three downloads
exist only when `flow.kickoff()` returned a mapping; an uncaught exception
anywhere in the flow reaches `main` and nothing is rendered. -/
def runExports (oLLM : String → Except String String)
    (lLLM : Nat → String → Except String String)
    (subject : String) (module_count : Nat)
    (nr : Except String NewsResponse) (sr : Except String ScholarResponse)
    (select : List String → List String) : Option (String × String × List String) :=
  match runCourse oLLM lLLM subject module_count nr sr select with
  | Except.ok lp => some (jsonDumpsCourse subject lp, markdownExport subject lp, pdfCells subject lp)
  | Except.error _ => none

/-- JSON values as `json.loads` produces them (numbers restricted to
integers; the course export contains no numbers at all). -/
inductive JVal where
  | jstr : String → JVal
  | jnum : Int → JVal
  | jbool : Bool → JVal
  | jnull : JVal
  | jarr : List JVal → JVal
  | jobj : List (String × JVal) → JVal
deriving Repr

/-- JSON insignificant whitespace. -/
def isJsonWs (c : Char) : Bool :=
  c = ' ' || c = '\t' || c = '\n' || c = '\r'

/-- Skip insignificant whitespace. -/
def skipWs : List Char → List Char
  | [] => []
  | c :: cs => if isJsonWs c then skipWs cs else c :: cs

/-- The value of a hexadecimal digit character (either case). -/
def hexVal (c : Char) : Option Nat :=
  if '0' ≤ c ∧ c ≤ '9' then some (c.toNat - 48)
  else if 'a' ≤ c ∧ c ≤ 'f' then some (c.toNat - 87)
  else if 'A' ≤ c ∧ c ≤ 'F' then some (c.toNat - 55)
  else none

/-- Combine four hex digits into a code unit. -/
def hexQuad (a b c d : Char) : Option Nat :=
  match hexVal a, hexVal b, hexVal c, hexVal d with
  | some x, some y, some z, some w => some (((x * 16 + y) * 16 + z) * 16 + w)
  | _, _, _, _ => none

/-- The single-character JSON escapes. -/
def decodeEscape (e : Char) : Option Char :=
  if e = '"' then some '"'
  else if e = '\\' then some '\\'
  else if e = '/' then some '/'
  else if e = 'b' then some '\x08'
  else if e = 'f' then some '\x0c'
  else if e = 'n' then some '\n'
  else if e = 'r' then some '\r'
  else if e = 't' then some '\t'
  else none

/-- Decode a JSON string body after the opening quote, strict mode as
`json.loads` (raw control characters rejected, surrogate pairs combined;
lone surrogates are rejected because they denote no scalar value). -/
def parseStrBody : List Char → Option (String × List Char)
  | [] => none
  | '"' :: rest => some ("", rest)
  | '\\' :: 'u' :: a :: b :: c :: d :: rest =>
    match hexQuad a b c d with
    | none => none
    | some n =>
      if 0xd800 ≤ n ∧ n ≤ 0xdbff then
        match rest with
        | '\\' :: 'u' :: a2 :: b2 :: c2 :: d2 :: rest2 =>
          match hexQuad a2 b2 c2 d2 with
          | none => none
          | some n2 =>
            if 0xdc00 ≤ n2 ∧ n2 ≤ 0xdfff then
              match parseStrBody rest2 with
              | some (s, r) => some (⟨Char.ofNat (0x10000 + (n - 0xd800) * 1024 + (n2 - 0xdc00)) :: s.data⟩, r)
              | none => none
            else none
        | _ => none
      else if 0xdc00 ≤ n ∧ n ≤ 0xdfff then none
      else
        match parseStrBody rest with
        | some (s, r) => some (⟨Char.ofNat n :: s.data⟩, r)
        | none => none
  | '\\' :: e :: rest =>
    match decodeEscape e with
    | none => none
    | some c =>
      match parseStrBody rest with
      | some (s, r) => some (⟨c :: s.data⟩, r)
      | none => none
  | c :: rest =>
    if c.toNat < 0x20 then none
    else
      match parseStrBody rest with
      | some (s, r) => some (⟨c :: s.data⟩, r)
      | none => none

/-- Parse an optionally signed integer literal (the only number form the
model supports; the course export contains no numbers). -/
def parseIntLit (cs : List Char) : Option (JVal × List Char) :=
  match cs with
  | '-' :: rest =>
    let ds := rest.takeWhile Char.isDigit
    if ds.isEmpty then none
    else some (JVal.jnum (-(Int.ofNat (ds.foldl (fun acc c => acc * 10 + (c.toNat - 48)) 0))),
      rest.dropWhile Char.isDigit)
  | _ =>
    let ds := cs.takeWhile Char.isDigit
    if ds.isEmpty then none
    else some (JVal.jnum (Int.ofNat (ds.foldl (fun acc c => acc * 10 + (c.toNat - 48)) 0)),
      cs.dropWhile Char.isDigit)

mutual

/-- Recursive-descent JSON value parser (model of `json.loads`), fuelled:
each recursive step burns one unit, so any fuel at least the nesting depth
plus the total member count succeeds. -/
def parseVal : Nat → List Char → Option (JVal × List Char)
  | 0, _ => none
  | f + 1, cs =>
    match skipWs cs with
    | '"' :: rest =>
      match parseStrBody rest with
      | some (s, r) => some (JVal.jstr s, r)
      | none => none
    | '\x7b' :: rest =>
      match skipWs rest with
      | '\x7d' :: r => some (JVal.jobj [], r)
      | _ => parseMembers f rest []
    | '[' :: rest =>
      match skipWs rest with
      | ']' :: r => some (JVal.jarr [], r)
      | _ => parseElems f rest []
    | 't' :: 'r' :: 'u' :: 'e' :: r => some (JVal.jbool true, r)
    | 'f' :: 'a' :: 'l' :: 's' :: 'e' :: r => some (JVal.jbool false, r)
    | 'n' :: 'u' :: 'l' :: 'l' :: r => some (JVal.jnull, r)
    | other => parseIntLit other

/-- Parse the members of a JSON object after the opening brace. -/
def parseMembers : Nat → List Char → List (String × JVal) → Option (JVal × List Char)
  | 0, _, _ => none
  | f + 1, cs, acc =>
    match skipWs cs with
    | '"' :: rest =>
      match parseStrBody rest with
      | none => none
      | some (key, r1) =>
        match skipWs r1 with
        | ':' :: r2 =>
          match parseVal f r2 with
          | none => none
          | some (v, r3) =>
            match skipWs r3 with
            | ',' :: r4 => parseMembers f r4 (acc ++ [(key, v)])
            | '\x7d' :: r4 => some (JVal.jobj (acc ++ [(key, v)]), r4)
            | _ => none
        | _ => none
    | _ => none

/-- Parse the elements of a JSON array after the opening bracket. -/
def parseElems : Nat → List Char → List JVal → Option (JVal × List Char)
  | 0, _, _ => none
  | f + 1, cs, acc =>
    match parseVal f cs with
    | none => none
    | some (v, r1) =>
      match skipWs r1 with
      | ',' :: r2 => parseElems f r2 (acc ++ [v])
      | ']' :: r2 => some (JVal.jarr (acc ++ [v]), r2)
      | _ => none

end

/-- Model of `json.loads`: parse one value, then require only trailing
whitespace. The fuel `length + 1` dominates the depth-plus-member count of
any parseable input. -/
def jsonLoads (s : String) : Option JVal :=
  match parseVal (s.data.length + 1) s.data with
  | some (v, rest) => if (skipWs rest).isEmpty then some v else none
  | none => none

/-- Association lookup among the members of a parsed object. -/
def lookupJ : List (String × JVal) → String → Option JVal
  | [], _ => none
  | (k₀, v₀) :: rest, k => if k₀ = k then some v₀ else lookupJ rest k

/-- Read one parsed `"modules"` entry back as a (title, lesson_plan) pair. -/
def moduleOfJVal : JVal → Option (String × String)
  | JVal.jobj [("title", JVal.jstr t), ("lesson_plan", JVal.jstr p)] => some (t, p)
  | _ => none

/-- Read a parsed array element-wise back into (title, lesson_plan) pairs. -/
def modulesOfJList : List JVal → Option (List (String × String))
  | [] => some []
  | v :: vs =>
    match moduleOfJVal v, modulesOfJList vs with
    | some q, some qs => some (q :: qs)
    | _, _ => none

/-- Recover the module list from a parsed course export. -/
def extractModules (v : JVal) : Option (List (String × String)) :=
  match v with
  | JVal.jobj kvs =>
    match lookupJ kvs "modules" with
    | some (JVal.jarr elems) => modulesOfJList elems
    | _ => none
  | _ => none

/-- Recover the subject from a parsed course export. -/
def extractSubject (v : JVal) : Option String :=
  match v with
  | JVal.jobj kvs =>
    match lookupJ kvs "subject" with
    | some (JVal.jstr s) => some s
    | _ => none
  | _ => none

/-- The parsed form of one module entry. -/
def jmodVal (q : String × String) : JVal :=
  JVal.jobj [("title", JVal.jstr q.1), ("lesson_plan", JVal.jstr q.2)]

/-- The parsed form of the course export. -/
def courseJVal (subject : String) (lp : List (String × String)) : JVal :=
  JVal.jobj [("subject", JVal.jstr subject),
    ("modules", JVal.jarr (lp.map jmodVal))]

/-- The heading line of the Markdown chunk for entry `i`. -/
def headingOf (i : Nat) (m : String) : String :=
  "## Module " ++ natStr (i + 1) ++ ": " ++ m

/-- The expected line decomposition of the Markdown body from entry `i` on:
each chunk contributes its heading, a blank line, the plan's own lines, and a
blank line; the final piece after the trailing newline is empty. -/
def mdLinesFrom (i : Nat) : List (String × String) → List String
  | [] => [""]
  | (m, p) :: rest => headingOf i m :: "" :: (linesOf p ++ "" :: mdLinesFrom (i + 1) rest)

/-- The heading lines from entry `i` on, in mapping order. -/
def headingsFrom (i : Nat) : List (String × String) → List String
  | [] => []
  | (m, _) :: rest => headingOf i m :: headingsFrom (i + 1) rest

/-- Filtering after mapping is mapping after filtering the composed
predicate. -/
theorem filterMapComm {α β : Type} (f : α → β) (p : β → Bool) :
    ∀ l : List α, (l.map f).filter p = (l.filter (fun x => p (f x))).map f
  | [] => rfl
  | x :: xs => by
    by_cases h : p (f x) <;>
      simp [List.filter_cons, h, filterMapComm f p xs]

/-- Claim C6: with both search results empty, context assembly is a total
function producing the two empty-joined clauses
`"News Headlines: . Research Papers: ."`. -/
theorem combine_context_empty :
    combineExternalContext [] [] = "News Headlines: . Research Papers: ." := rfl

/-- Claim C7: if either enrichment fetch raises (any exception outcome `e₁`,
`e₂`), that fetcher returns the empty list, and the pipeline reaches context
assembly and runs on exactly as it would with empty search results instead of
aborting. -/
theorem enrichment_failure_degrades (e₁ e₂ : String)
    (oLLM : String → Except String String) (lLLM : Nat → String → Except String String)
    (subject : String) (module_count : Nat) (select : List String → List String) :
    fetchExternalData (Except.error e₁) = [] ∧
    fetchSemanticScholarData (Except.error e₂) = [] ∧
    contextOf (Except.error e₁) (Except.error e₂) = combineExternalContext [] [] ∧
    runCourse oLLM lLLM subject module_count (Except.error e₁) (Except.error e₂) select =
      runCourse oLLM lLLM subject module_count (Except.ok ⟨[]⟩) (Except.ok ⟨[]⟩) select :=
  ⟨rfl, rfl, rfl, rfl⟩

/-- Claim C1: the outline parser keeps exactly the stripped non-empty lines
matching the leading-digits-plus-period pattern, falling back to all stripped
non-empty lines when no line matches; on `"Just prose.\nNo numbers here."`
the fallback fires and returns both lines. -/
theorem outline_parse_filter_fallback :
    (∀ s : String,
      parseOutline s =
        if (nonEmptyTrimmedLines s).filter (fun ln => isNumberedLine ln) = []
        then nonEmptyTrimmedLines s
        else (nonEmptyTrimmedLines s).filter (fun ln => isNumberedLine ln)) ∧
    parseOutline "Just prose.\nNo numbers here." = ["Just prose.", "No numbers here."] := by
  constructor
  · intro s
    show (parseOutlineData s.data).map (fun l => (⟨l⟩ : String)) = _
    rw [show (nonEmptyTrimmedLines s).filter (fun ln => isNumberedLine ln)
        = ((nonEmptyTrimmedData s.data).filter matchesNumbered).map (fun l => (⟨l⟩ : String)) from
      filterMapComm (fun l => (⟨l⟩ : String)) (fun ln => isNumberedLine ln) _]
    unfold parseOutlineData nonEmptyTrimmedLines
    by_cases h : (nonEmptyTrimmedData s.data).filter matchesNumbered = [] <;>
      simp [h, List.isEmpty_iff]
  · decide

/-- Claim C10: the parsed module list is an order-preserving subsequence of
the stripped non-empty lines of the raw outline, in both the numbered-filter
branch and the fallback branch. -/
theorem outline_parse_sublist (s : String) :
    (parseOutline s).Sublist (nonEmptyTrimmedLines s) := by
  show ((parseOutlineData s.data).map _).Sublist _
  unfold parseOutlineData nonEmptyTrimmedLines
  by_cases h : ((nonEmptyTrimmedData s.data).filter matchesNumbered).isEmpty <;>
    simp only [h, if_true, if_false, Bool.false_eq_true]
  · exact List.Sublist.refl _
  · exact (List.filter_sublist _).map _

/-- Splitting never produces the empty list of pieces. -/
theorem splitLines_ne_nil (l : List Char) : splitLinesData l ≠ [] := by
  induction l with
  | nil => simp [splitLinesData]
  | cons c cs ih =>
    unfold splitLinesData
    split
    · simp
    · split <;> simp

/-- No piece of the split contains a newline. -/
theorem splitLines_no_newline : ∀ (l : List Char), ∀ p ∈ splitLinesData l, '\n' ∉ p := by
  intro l
  induction l with
  | nil =>
    intro p hp
    simp [splitLinesData] at hp
    simp [hp]
  | cons c cs ih =>
    intro p hp
    unfold splitLinesData at hp
    by_cases hc : c = '\n'
    · rw [if_pos hc] at hp
      rcases List.mem_cons.mp hp with h | h
      · simp [h]
      · exact ih p h
    · rw [if_neg hc] at hp
      rcases hx : splitLinesData cs with _ | ⟨l0, ls⟩
      · exact absurd hx (splitLines_ne_nil cs)
      · rw [hx] at hp
        rcases List.mem_cons.mp hp with h | h
        · subst h
          intro hmem
          rcases List.mem_cons.mp hmem with h1 | h1
          · exact hc h1.symm
          · exact ih l0 (by rw [hx]; exact List.mem_cons_self l0 ls) h1
        · exact ih p (by rw [hx]; exact List.mem_cons_of_mem l0 h)

/-- A newline-free text is a single piece. -/
theorem splitLines_single : ∀ l : List Char, '\n' ∉ l → splitLinesData l = [l]
  | [], _ => rfl
  | c :: cs, h => by
    unfold splitLinesData
    have hc : ¬(c = '\n') := by
      intro e
      exact h (by rw [e] at *; exact List.mem_cons_self _ _)
    rw [if_neg hc, splitLines_single cs (fun hm => h (List.mem_cons_of_mem _ hm))]

/-- The cons equation of the splitter, for targeted rewriting. -/
theorem splitLines_cons (c : Char) (cs : List Char) :
    splitLinesData (c :: cs) =
      if c = '\n' then [] :: splitLinesData cs
      else
        match splitLinesData cs with
        | [] => [[c]]
        | l :: ls => (c :: l) :: ls := rfl

/-- Splitting distributes over a newline between two texts. -/
theorem splitLines_append : ∀ a b : List Char,
    splitLinesData (a ++ '\n' :: b) = splitLinesData a ++ splitLinesData b
  | [], b => by simp [splitLinesData]
  | c :: cs, b => by
    show splitLinesData (c :: (cs ++ '\n' :: b)) = _
    rw [splitLines_cons c (cs ++ '\n' :: b), splitLines_cons c cs, splitLines_append cs b]
    by_cases hc : c = '\n'
    · rw [if_pos hc, if_pos hc]
      rfl
    · rw [if_neg hc, if_neg hc]
      rcases hx : splitLinesData cs with _ | ⟨l0, ls⟩
      · exact absurd hx (splitLines_ne_nil cs)
      · rfl

/-- Splitting the newline-join of newline-free pieces recovers the pieces. -/
theorem splitLines_joinNL : ∀ ps : List (List Char), ps ≠ [] → (∀ p ∈ ps, '\n' ∉ p) →
    splitLinesData (joinNL ps) = ps
  | [], h, _ => absurd rfl h
  | [p], _, hn => by
    unfold joinNL
    exact splitLines_single p (hn p (List.mem_cons_self _ _))
  | p :: q :: ps, _, hn => by
    show splitLinesData (p ++ '\n' :: joinNL (q :: ps)) = _
    rw [splitLines_append, splitLines_single p (hn p (List.mem_cons_self _ _)),
      splitLines_joinNL (q :: ps) (by simp) (fun x hx => hn x (List.mem_cons_of_mem _ hx))]
    rfl

/-- The head surviving a `dropWhile` fails the predicate. -/
theorem dropWhile_head_false {α : Type} (p : α → Bool) :
    ∀ (l : List α) (c : α), (l.dropWhile p).head? = some c → p c = false
  | [], c => by
    intro h
    simp [List.dropWhile] at h
  | x :: xs, c => by
    intro h
    rw [List.dropWhile_cons] at h
    by_cases hx : p x = true
    · rw [if_pos hx] at h
      exact dropWhile_head_false p xs c h
    · rw [if_neg hx] at h
      simp only [List.head?_cons, Option.some.injEq] at h
      subst h
      exact Bool.not_eq_true _ ▸ hx

/-- A list whose head fails the predicate is unchanged by `dropWhile`. -/
theorem dropWhile_eq_self_of_head {α : Type} (p : α → Bool) (l : List α)
    (h : ∀ c, l.head? = some c → p c = false) : l.dropWhile p = l := by
  cases l with
  | nil => rfl
  | cons x xs =>
    rw [List.dropWhile_cons, if_neg]
    simp [h x rfl]

/-- A nonempty `dropWhile` keeps the last element. -/
theorem getLast_dropWhile {α : Type} (p : α → Bool) :
    ∀ l : List α, l.dropWhile p ≠ [] → (l.dropWhile p).getLast? = l.getLast?
  | [], h => absurd rfl h
  | x :: xs, h => by
    rw [List.dropWhile_cons] at h ⊢
    by_cases hx : p x = true
    · rw [if_pos hx] at h ⊢
      rw [getLast_dropWhile p xs h]
      cases xs with
      | nil => simp [List.dropWhile] at h
      | cons y ys => rw [List.getLast?_cons_cons]
    · rw [if_neg hx]

/-- Elements survive `dropWhile` only from the original list. -/
theorem mem_of_mem_dropWhile {α : Type} {p : α → Bool} {c : α} :
    ∀ {l : List α}, c ∈ l.dropWhile p → c ∈ l
  | [], h => by simp [List.dropWhile] at h
  | x :: xs, h => by
    rw [List.dropWhile_cons] at h
    by_cases hx : p x = true
    · rw [if_pos hx] at h
      exact List.mem_cons_of_mem _ (mem_of_mem_dropWhile h)
    · rw [if_neg hx] at h
      exact h

/-- The head of a stripped text is not whitespace. -/
theorem pyStrip_head (l : List Char) (c : Char) (h : (pyStripData l).head? = some c) :
    isPySpace c = false := by
  unfold pyStripData at h
  rw [List.head?_reverse] at h
  have hne : ((l.dropWhile isPySpace).reverse.dropWhile isPySpace) ≠ [] := by
    intro e
    rw [e] at h
    simp at h
  rw [getLast_dropWhile _ _ hne, List.getLast?_reverse] at h
  exact dropWhile_head_false _ _ _ h

/-- The last element of a stripped text is not whitespace. -/
theorem pyStrip_getLast (l : List Char) (c : Char) (h : (pyStripData l).getLast? = some c) :
    isPySpace c = false := by
  unfold pyStripData at h
  rw [List.getLast?_reverse] at h
  exact dropWhile_head_false _ _ _ h

/-- A text with non-whitespace at both ends is already stripped. -/
theorem pyStrip_eq_self (l : List Char)
    (h1 : ∀ c, l.head? = some c → isPySpace c = false)
    (h2 : ∀ c, l.getLast? = some c → isPySpace c = false) : pyStripData l = l := by
  unfold pyStripData
  rw [dropWhile_eq_self_of_head _ l h1,
    dropWhile_eq_self_of_head _ l.reverse (fun c hc => h2 c (by rwa [List.head?_reverse] at hc)),
    List.reverse_reverse]

/-- Stripping is idempotent. -/
theorem pyStrip_idem (l : List Char) : pyStripData (pyStripData l) = pyStripData l :=
  pyStrip_eq_self _ (pyStrip_head l) (pyStrip_getLast l)

/-- Stripping only removes characters. -/
theorem mem_of_mem_pyStrip {c : Char} {l : List Char} (h : c ∈ pyStripData l) : c ∈ l := by
  unfold pyStripData at h
  rw [List.mem_reverse] at h
  have h1 := mem_of_mem_dropWhile h
  rw [List.mem_reverse] at h1
  exact mem_of_mem_dropWhile h1

/-- Every element of the stripped non-empty line list is already stripped,
non-empty, and newline-free. -/
theorem mem_nonEmptyTrimmed {l : List Char} {p : List Char} (h : p ∈ nonEmptyTrimmedData l) :
    pyStripData p = p ∧ p ≠ [] ∧ '\n' ∉ p := by
  unfold nonEmptyTrimmedData at h
  obtain ⟨hm, hne⟩ := List.mem_filter.mp h
  obtain ⟨q, hq, rfl⟩ := List.mem_map.mp hm
  refine ⟨pyStrip_idem q, ?_, ?_⟩
  · intro e
    rw [e] at hne
    simp at hne
  · intro hmem
    exact splitLines_no_newline l q hq (mem_of_mem_pyStrip hmem)

/-- Rebuilding a list of stripped, non-empty, newline-free lines from its
newline join gives the list back. -/
theorem nonEmptyTrimmed_joinNL (L : List (List Char))
    (hstrip : ∀ p ∈ L, pyStripData p = p) (hne : ∀ p ∈ L, p ≠ [])
    (hnl : ∀ p ∈ L, '\n' ∉ p) :
    nonEmptyTrimmedData (joinNL L) = L := by
  cases L with
  | nil => rfl
  | cons p ps =>
    unfold nonEmptyTrimmedData
    rw [splitLines_joinNL (p :: ps) (by simp) hnl]
    rw [show (p :: ps).map pyStripData = p :: ps from
      List.map_congr_left hstrip ▸ List.map_id (p :: ps)]
    exact List.filter_eq_self.mpr (fun a ha => by simp [hne a ha])

/-- Unfolding equation of the outline parser. -/
theorem parseOutlineData_eq (x : List Char) :
    parseOutlineData x =
      if ((nonEmptyTrimmedData x).filter matchesNumbered).isEmpty
      then nonEmptyTrimmedData x
      else (nonEmptyTrimmedData x).filter matchesNumbered := rfl

/-- Data-level idempotence of the outline parser. -/
theorem parseOutlineData_idem (l : List Char) :
    parseOutlineData (joinNL (parseOutlineData l)) = parseOutlineData l := by
  have hmemL : ∀ p ∈ parseOutlineData l, p ∈ nonEmptyTrimmedData l := by
    intro p hp
    rw [parseOutlineData_eq] at hp
    by_cases h : ((nonEmptyTrimmedData l).filter matchesNumbered).isEmpty = true
    · rw [if_pos h] at hp
      exact hp
    · rw [if_neg h] at hp
      exact List.mem_of_mem_filter hp
  have hrebuild : nonEmptyTrimmedData (joinNL (parseOutlineData l)) = parseOutlineData l :=
    nonEmptyTrimmed_joinNL _
      (fun p hp => (mem_nonEmptyTrimmed (hmemL p hp)).1)
      (fun p hp => (mem_nonEmptyTrimmed (hmemL p hp)).2.1)
      (fun p hp => (mem_nonEmptyTrimmed (hmemL p hp)).2.2)
  rw [parseOutlineData_eq (joinNL (parseOutlineData l)), hrebuild]
  by_cases h : ((nonEmptyTrimmedData l).filter matchesNumbered).isEmpty = true
  · have hL : parseOutlineData l = nonEmptyTrimmedData l := by
      rw [parseOutlineData_eq, if_pos h]
    rw [hL, if_pos h]
  · have hL : parseOutlineData l = (nonEmptyTrimmedData l).filter matchesNumbered := by
      rw [parseOutlineData_eq, if_neg h]
    have hfil : ((nonEmptyTrimmedData l).filter matchesNumbered).filter matchesNumbered
        = (nonEmptyTrimmedData l).filter matchesNumbered :=
      List.filter_eq_self.mpr (fun a ha => List.of_mem_filter ha)
    rw [hL, hfil, if_neg h]

/-- Mapping to strings and back to character data is the identity. -/
theorem map_mk_data : ∀ L : List (List Char),
    (L.map (fun l => (⟨l⟩ : String))).map String.data = L
  | [] => rfl
  | l :: ls => by rw [List.map_cons, List.map_cons, map_mk_data ls]

/-- Claim C5: the outline parser is idempotent; joining the parsed module
lines with newlines and re-parsing yields the same module list. -/
theorem outline_parse_idempotent (s : String) :
    parseOutline (joinLines (parseOutline s)) = parseOutline s := by
  have hdata : (joinLines (parseOutline s)).data = joinNL (parseOutlineData s.data) := by
    show joinNL (((parseOutlineData s.data).map (fun l => (⟨l⟩ : String))).map String.data) = _
    rw [map_mk_data]
  show (parseOutlineData (joinLines (parseOutline s)).data).map _ = _
  rw [hdata, parseOutlineData_idem]
  rfl

/-- Assignment makes the key retrievable with the assigned value. -/
theorem dictInsert_lookup_same : ∀ (d : List (String × String)) (k v : String),
    lookupD (dictInsert d k v) k = some v
  | [], k, v => by simp [dictInsert, lookupD]
  | (k₀, v₀) :: rest, k, v => by
    unfold dictInsert
    by_cases h : k₀ = k
    · rw [if_pos h]
      unfold lookupD
      rw [if_pos h]
    · rw [if_neg h]
      unfold lookupD
      rw [if_neg h]
      exact dictInsert_lookup_same rest k v

/-- Assignment leaves other keys untouched. -/
theorem dictInsert_lookup_other : ∀ (d : List (String × String)) (k v t : String), k ≠ t →
    lookupD (dictInsert d k v) t = lookupD d t
  | [], k, v, t, h => by
    unfold dictInsert lookupD
    rw [if_neg h]
    rfl
  | (k₀, v₀) :: rest, k, v, t, h => by
    unfold dictInsert
    by_cases h0 : k₀ = k
    · rw [if_pos h0]
      unfold lookupD
      rw [if_neg (h0 ▸ fun e => h e), if_neg (h0 ▸ fun e => h e)]
    · rw [if_neg h0]
      unfold lookupD
      by_cases ht : k₀ = t
      · rw [if_pos ht, if_pos ht]
      · rw [if_neg ht, if_neg ht]
        exact dictInsert_lookup_other rest k v t h

/-- The keys after an assignment: unchanged when present, appended when new. -/
theorem dictInsert_keys : ∀ (d : List (String × String)) (k v : String),
    (dictInsert d k v).map Prod.fst =
      if k ∈ d.map Prod.fst then d.map Prod.fst else d.map Prod.fst ++ [k]
  | [], k, v => by simp [dictInsert]
  | (k₀, v₀) :: rest, k, v => by
    unfold dictInsert
    by_cases h : k₀ = k
    · subst h
      simp
    · rw [if_neg h]
      simp only [List.map_cons, dictInsert_keys rest k v]
      by_cases hm : k ∈ rest.map Prod.fst
      · rw [if_pos hm, if_pos (List.mem_cons_of_mem _ hm)]
      · rw [if_neg hm, if_neg (by
          intro hc
          rcases List.mem_cons.mp hc with h1 | h1
          · exact h h1.symm
          · exact hm h1)]
        rfl

/-- Appending one more module to the loop input performs one more
assignment, with the call index equal to the position. -/
theorem lessonFold_append (llm : Nat → String → Except String String) :
    ∀ (sel : List String) (m : String) (i : Nat) (acc : List (String × String)),
    lessonFold llm i (sel ++ [m]) acc =
      dictInsert (lessonFold llm i sel acc) m
        (pyStripS (exceptGet (llm (i + sel.length) (lessonPrompt m))))
  | [], m, i, acc => rfl
  | x :: sel, m, i, acc => by
    show lessonFold llm (i + 1) (sel ++ [m]) _ = _
    rw [lessonFold_append llm sel m (i + 1) _]
    rw [show i + 1 + sel.length = i + (x :: sel).length from by simp; omega]
    rfl

/-- Membership in the first-occurrence key list is membership in the list. -/
theorem firstKeys_mem (x : String) : ∀ sel : List String, x ∈ firstKeys sel ↔ x ∈ sel
  | [] => by simp [firstKeys]
  | m :: rest => by
    simp only [firstKeys, List.mem_cons, List.mem_filter]
    constructor
    · rintro (rfl | ⟨h, _⟩)
      · exact Or.inl rfl
      · exact Or.inr ((firstKeys_mem x rest).mp h)
    · rintro (rfl | h)
      · exact Or.inl rfl
      · by_cases hx : x = m
        · exact Or.inl hx
        · exact Or.inr ⟨(firstKeys_mem x rest).mpr h, by simp [hx]⟩

/-- The first-occurrence key list has no duplicates. -/
theorem firstKeys_nodup : ∀ sel : List String, (firstKeys sel).Nodup
  | [] => List.nodup_nil
  | m :: rest => by
    simp only [firstKeys]
    rw [List.nodup_cons]
    refine ⟨?_, (firstKeys_nodup rest).filter _⟩
    intro hmem
    have h2 := (List.mem_filter.mp hmem).2
    simp at h2

/-- First-occurrence keys after appending one element. -/
theorem firstKeys_append (m : String) : ∀ sel : List String,
    firstKeys (sel ++ [m]) = if m ∈ sel then firstKeys sel else firstKeys sel ++ [m]
  | [] => by simp [firstKeys]
  | x :: sel => by
    show firstKeys (x :: (sel ++ [m])) = _
    simp only [firstKeys, firstKeys_append m sel]
    by_cases hm : m ∈ sel
    · rw [if_pos hm, if_pos (List.mem_cons_of_mem x hm)]
    · rw [if_neg hm]
      by_cases hx : m = x
      · subst hx
        rw [if_pos (List.mem_cons_self _ _), List.filter_append]
        simp
      · rw [if_neg (by
          intro hc
          rcases List.mem_cons.mp hc with h1 | h1
          · exact hx h1
          · exact hm h1), List.filter_append]
        simp only [List.cons_append, List.filter_cons, List.filter_nil]
        rw [if_pos (by simp [hx])]

/-- Indexing an append below the left length. -/
theorem getD_append_lt {α : Type} (d : α) : ∀ (l l' : List α) (j : Nat), j < l.length →
    (l ++ l').getD j d = l.getD j d
  | [], _, j, h => absurd h (by simp)
  | x :: xs, l', 0, _ => rfl
  | x :: xs, l', j + 1, h => by
    show (x :: (xs ++ l')).getD (j + 1) d = _
    rw [List.getD_cons_succ, List.getD_cons_succ]
    exact getD_append_lt d xs l' j (by simpa using h)

/-- Indexing an appended singleton at the left length. -/
theorem getD_append_length {α : Type} (d m : α) : ∀ l : List α, (l ++ [m]).getD l.length d = m
  | [] => rfl
  | x :: xs => by
    show (x :: (xs ++ [m])).getD (xs.length + 1) d = m
    rw [List.getD_cons_succ]
    exact getD_append_length d m xs

/-- The keys of the lesson-plan dict are the distinct selected titles in
first-occurrence order. -/
theorem lessonFold_keys (llm : Nat → String → Except String String) (sel : List String) :
    (lessonFold llm 0 sel []).map Prod.fst = firstKeys sel := by
  induction sel using List.reverseRecOn with
  | nil => rfl
  | append_singleton sel m ih =>
    rw [lessonFold_append, dictInsert_keys, ih, firstKeys_append]
    by_cases hm : m ∈ sel
    · rw [if_pos ((firstKeys_mem m sel).mpr hm), if_pos hm]
    · rw [if_neg (fun hc => hm ((firstKeys_mem m sel).mp hc)), if_neg hm]

/-- The stored value for a title is the plan of its last occurrence. -/
theorem lookup_lessonFold (llm : Nat → String → Except String String) :
    ∀ (sel : List String) (t : String) (j : Nat), j < sel.length → sel.getD j "" = t →
    (∀ k, j < k → k < sel.length → sel.getD k "" ≠ t) →
    lookupD (lessonFold llm 0 sel []) t =
      some (pyStripS (exceptGet (llm j (lessonPrompt t)))) := by
  intro sel
  induction sel using List.reverseRecOn with
  | nil =>
    intro t j hj
    simp at hj
  | append_singleton sel m ih =>
    intro t j hj ht hlast
    rw [lessonFold_append]
    by_cases hm : m = t
    · subst hm
      have hjeq : j = sel.length := by
        by_contra hne
        have hjlt : j < sel.length := by
          rw [List.length_append, List.length_singleton] at hj
          omega
        exact hlast sel.length hjlt (by simp) (getD_append_length "" m sel)
      rw [dictInsert_lookup_same, Nat.zero_add, hjeq]
    · rw [dictInsert_lookup_other _ _ _ _ hm]
      have hjlt : j < sel.length := by
        rw [List.length_append, List.length_singleton] at hj
        rcases Nat.lt_succ_iff_lt_or_eq.mp hj with h | h
        · exact h
        · exact absurd (by rw [← ht, h]; exact (getD_append_length "" m sel).symm) hm
      refine ih t j hjlt ?_ ?_
      · rw [← getD_append_lt "" sel [m] j hjlt]
        exact ht
      · intro k hk1 hk2
        have h3 := hlast k hk1 (by rw [List.length_append, List.length_singleton]; omega)
        rwa [getD_append_lt "" sel [m] k hk2] at h3

/-- When every completion call succeeds, the loop returns the fold. -/
theorem lessonLoop_ok (llm : Nat → String → Except String String) :
    ∀ (sel : List String) (i : Nat) (acc : List (String × String)),
    (∀ k, k < sel.length → exceptOk (llm (i + k) (lessonPrompt (sel.getD k ""))) = true) →
    lessonLoop llm i sel acc = Except.ok (lessonFold llm i sel acc)
  | [], i, acc, _ => rfl
  | m :: rest, i, acc, h => by
    have h0 := h 0 (by simp)
    rw [List.getD_cons_zero, Nat.add_zero] at h0
    show (match llm i (lessonPrompt m) with
      | Except.error e => Except.error e
      | Except.ok reply => lessonLoop llm (i + 1) rest (dictInsert acc m (pyStripS reply))) = _
    rcases hx : llm i (lessonPrompt m) with e | r
    · rw [hx] at h0
      simp [exceptOk] at h0
    · show lessonLoop llm (i + 1) rest _ = Except.ok (lessonFold llm i (m :: rest) acc)
      have hfold : lessonFold llm i (m :: rest) acc
          = lessonFold llm (i + 1) rest (dictInsert acc m (pyStripS (exceptGet (llm i (lessonPrompt m))))) := rfl
      rw [hfold, hx]
      exact lessonLoop_ok llm rest (i + 1) _ (fun k hk => by
        have h2 := h (k + 1) (by simpa using Nat.succ_lt_succ hk)
        rw [List.getD_cons_succ] at h2
        rw [show i + 1 + k = i + (k + 1) from by omega]
        exact h2)

/-- If any call in the loop fails, the loop aborts with an error, discarding
everything accumulated so far. -/
theorem lessonLoop_err (llm : Nat → String → Except String String) :
    ∀ (sel : List String) (i : Nat) (acc : List (String × String)),
    (∃ k, k < sel.length ∧ exceptOk (llm (i + k) (lessonPrompt (sel.getD k ""))) = false) →
    ∃ e, lessonLoop llm i sel acc = Except.error e
  | [], _, _, ⟨k, hk, _⟩ => absurd hk (by simp)
  | m :: rest, i, acc, ⟨k, hk, hfail⟩ => by
    show ∃ e, (match llm i (lessonPrompt m) with
      | Except.error e => Except.error e
      | Except.ok reply => lessonLoop llm (i + 1) rest (dictInsert acc m (pyStripS reply))) = Except.error e
    rcases hx : llm i (lessonPrompt m) with e | r
    · exact ⟨e, rfl⟩
    · cases k with
      | zero =>
        rw [List.getD_cons_zero, Nat.add_zero, hx] at hfail
        simp [exceptOk] at hfail
      | succ k₀ =>
        apply lessonLoop_err llm rest (i + 1) _
        refine ⟨k₀, by simpa using Nat.lt_of_succ_lt_succ hk, ?_⟩
        rw [List.getD_cons_succ] at hfail
        rw [show i + 1 + k₀ = i + (k₀ + 1) from by omega]
        exact hfail

/-- A dict whose keys are distinct has one entry per present key. -/
theorem countP_key_eq_one : ∀ (d : List (String × String)), (d.map Prod.fst).Nodup →
    ∀ t ∈ d.map Prod.fst, d.countP (fun q => decide (q.1 = t)) = 1
  | [], _, t, ht => by simp at ht
  | q :: rest, hnd, t, ht => by
    rw [List.map_cons, List.nodup_cons] at hnd
    rw [List.countP_cons]
    rcases List.mem_cons.mp ht with h | h
    · subst h
      rw [if_pos (by simp)]
      rw [List.countP_eq_zero.mpr (fun r hr => by
        simp only [decide_eq_true_eq]
        intro e
        exact hnd.1 (e ▸ List.mem_map_of_mem Prod.fst hr))]
    · rw [if_neg (by
        simp only [decide_eq_true_eq]
        intro e
        exact hnd.1 (e ▸ h))]
      rw [Nat.add_zero]
      exact countP_key_eq_one rest hnd.2 t h

/-- An index below the length lands in the list. -/
theorem getD_mem_of_lt {α : Type} (d : α) : ∀ (l : List α) (j : Nat), j < l.length →
    l.getD j d ∈ l
  | [], j, h => absurd h (by simp)
  | x :: xs, 0, _ => List.mem_cons_self _ _
  | x :: xs, j + 1, h => by
    rw [List.getD_cons_succ]
    exact List.mem_cons_of_mem _ (getD_mem_of_lt d xs j (by simpa using h))

/-- Claim C2 counterexample: with the outline parsed as
`["1. A", "2. B"]` and the widget returning the selection in the order
`["2. B", "1. A"]`, the loop stores the plans keyed in selection order, not
in the order the modules appear in the parsed outline. -/
theorem lesson_order_counterexample :
    runCourse (fun _ => Except.ok "1. A\n2. B") (fun i _ => Except.ok (natStr i)) "S" 2
        (Except.error "down") (Except.error "down") (fun _ => ["2. B", "1. A"]) =
      Except.ok [("2. B", "0"), ("1. A", "1")] ∧
    parseOutline "1. A\n2. B" = ["1. A", "2. B"] ∧
    List.map Prod.fst [("2. B", "0"), ("1. A", "1")] ≠ ["1. A", "2. B"] :=
  ⟨rfl, by decide, by decide⟩

/-- Claim C2 (amended): the lesson-plan loop iterates and stores plans in
the order of the selected-modules list exactly as the multiselect widget
hands it back (the order of selection, first occurrence per duplicate
title); the code performs no reordering to match the parsed outline. -/
theorem lesson_order_follows_selection (llm : Nat → String → Except String String)
    (sel : List String)
    (hok : ∀ k, k < sel.length → exceptOk (llm k (lessonPrompt (sel.getD k ""))) = true) :
    ∃ d, generateLessonPlans llm sel = Except.ok d ∧ d.map Prod.fst = firstKeys sel :=
  ⟨lessonFold llm 0 sel [],
    lessonLoop_ok llm sel 0 [] (by simpa using hok),
    lessonFold_keys llm sel⟩

/-- Witness for the amended claim C2 at a concrete reversed selection. -/
theorem lesson_order_follows_selection_witness :
    ∃ d, generateLessonPlans (fun _ _ => Except.ok "plan") ["2. B", "1. A"] = Except.ok d ∧
      d.map Prod.fst = firstKeys ["2. B", "1. A"] :=
  lesson_order_follows_selection (fun _ _ => Except.ok "plan") ["2. B", "1. A"]
    (fun _ _ => rfl)

/-- Claim C9: when the selection repeats a title (some earlier index `j₀`
holds the same title as its last occurrence `j`), the dict ends with a single
entry for that title holding the plan of the later occurrence, and its size
is the number of distinct selected titles. -/
theorem duplicate_title_overwrite (llm : Nat → String → Except String String)
    (sel : List String) (t : String) (j : Nat)
    (_hdup : ∃ j₀, j₀ < j ∧ sel.getD j₀ "" = t)
    (hj : j < sel.length) (ht : sel.getD j "" = t)
    (hlast : ∀ k, j < k → k < sel.length → sel.getD k "" ≠ t)
    (hok : ∀ k, k < sel.length → exceptOk (llm k (lessonPrompt (sel.getD k ""))) = true) :
    ∃ d, generateLessonPlans llm sel = Except.ok d ∧
      d.countP (fun q => decide (q.1 = t)) = 1 ∧
      lookupD d t = some (pyStripS (exceptGet (llm j (lessonPrompt t)))) ∧
      d.length = (firstKeys sel).length := by
  refine ⟨lessonFold llm 0 sel [], lessonLoop_ok llm sel 0 [] (by simpa using hok), ?_, ?_, ?_⟩
  · have hnd : ((lessonFold llm 0 sel []).map Prod.fst).Nodup := by
      rw [lessonFold_keys]
      exact firstKeys_nodup sel
    have hmemt : t ∈ (lessonFold llm 0 sel []).map Prod.fst := by
      rw [lessonFold_keys]
      exact (firstKeys_mem t sel).mpr (by rw [← ht]; exact getD_mem_of_lt "" sel j hj)
    exact countP_key_eq_one _ hnd t hmemt
  · exact lookup_lessonFold llm sel t j hj ht hlast
  · rw [← lessonFold_keys llm sel, List.length_map]

/-- Witness for claim C9: the title `"1. A"` selected twice; one entry
remains, holding the second call's plan. -/
theorem duplicate_title_overwrite_witness :
    ∃ d, generateLessonPlans (fun i _ => Except.ok (natStr i)) ["1. A", "1. A"] = Except.ok d ∧
      d.countP (fun q => decide (q.1 = "1. A")) = 1 ∧
      lookupD d "1. A" = some (pyStripS (exceptGet (Except.ok (natStr 1)))) ∧
      d.length = (firstKeys ["1. A", "1. A"]).length :=
  duplicate_title_overwrite (fun i _ => Except.ok (natStr i)) ["1. A", "1. A"] "1. A" 1
    ⟨0, by decide, by decide⟩ (by decide) (by decide)
    (fun k hk1 hk2 => absurd hk2 (by simp only [List.length_cons, List.length_nil]; omega))
    (fun _ _ => rfl)

/-- Claim C8: a completion failure is uncaught: an outline-call failure
aborts the run with that error, and a failure at any iteration of the
lesson-plan loop aborts the run; in both cases no export (JSON, Markdown, or
PDF cells) is produced — in particular no partial export of the plans built
before the failing iteration. -/
theorem llm_failure_aborts (oLLM : String → Except String String)
    (lLLM : Nat → String → Except String String) (subject : String) (module_count : Nat)
    (nr : Except String NewsResponse) (sr : Except String ScholarResponse)
    (select : List String → List String) :
    (∀ e, oLLM (outlinePrompt (contextOf nr sr) subject module_count) = Except.error e →
      runCourse oLLM lLLM subject module_count nr sr select = Except.error e ∧
      runExports oLLM lLLM subject module_count nr sr select = none) ∧
    (∀ raw, oLLM (outlinePrompt (contextOf nr sr) subject module_count) = Except.ok raw →
      ∀ k, k < (select (parseOutline (pyStripS raw))).length →
      exceptOk (lLLM k (lessonPrompt ((select (parseOutline (pyStripS raw))).getD k ""))) = false →
      (∃ e, runCourse oLLM lLLM subject module_count nr sr select = Except.error e) ∧
      runExports oLLM lLLM subject module_count nr sr select = none) := by
  constructor
  · intro e he
    have hrun : runCourse oLLM lLLM subject module_count nr sr select = Except.error e := by
      unfold runCourse generateCourseOutline
      rw [he]
    refine ⟨hrun, ?_⟩
    unfold runExports
    rw [hrun]
  · intro raw hraw k hk hfail
    obtain ⟨e, he⟩ := lessonLoop_err lLLM (select (parseOutline (pyStripS raw))) 0 []
      ⟨k, hk, by rw [Nat.zero_add]; exact hfail⟩
    have hrun : runCourse oLLM lLLM subject module_count nr sr select = Except.error e := by
      unfold runCourse generateCourseOutline
      rw [hraw]
      exact he
    refine ⟨⟨e, hrun⟩, ?_⟩
    unfold runExports
    rw [hrun]

/-- Witness for claim C8: an outline-call failure, and separately a failure
at the second lesson-plan iteration, each abort the run with no export. -/
theorem llm_failure_aborts_witness :
    (runCourse (fun _ => Except.error "llmdown") (fun _ _ => Except.ok "plan") "S" 2
        (Except.error "x") (Except.error "y") (fun ms => ms) = Except.error "llmdown" ∧
      runExports (fun _ => Except.error "llmdown") (fun _ _ => Except.ok "plan") "S" 2
        (Except.error "x") (Except.error "y") (fun ms => ms) = none) ∧
    ((∃ e, runCourse (fun _ => Except.ok "1. A\n2. B")
        (fun i _ => if i = 1 then Except.error "boom" else Except.ok "plan") "S" 2
        (Except.error "x") (Except.error "y") (fun ms => ms) = Except.error e) ∧
      runExports (fun _ => Except.ok "1. A\n2. B")
        (fun i _ => if i = 1 then Except.error "boom" else Except.ok "plan") "S" 2
        (Except.error "x") (Except.error "y") (fun ms => ms) = none) :=
  ⟨(llm_failure_aborts _ _ _ _ _ _ _).1 "llmdown" rfl,
    (llm_failure_aborts _ _ _ _ _ _ _).2 "1. A\n2. B" rfl 1 (by decide) (by decide)⟩

/-- Digit characters are never newlines. -/
theorem digitChar_not_newline (k : Nat) : digitChar k ≠ '\n' := by
  unfold digitChar
  split <;> decide

/-- Decimal renderings contain no newline. -/
theorem natCharsAux_no_newline : ∀ (f n : Nat), '\n' ∉ natCharsAux f n
  | 0, n => by simp [natCharsAux]
  | f + 1, n => by
    unfold natCharsAux
    by_cases h : n < 10
    · rw [if_pos h]
      intro hm
      rcases List.mem_cons.mp hm with h1 | h1
      · exact digitChar_not_newline n h1.symm
      · simp at h1
    · rw [if_neg h]
      intro hm
      rcases List.mem_append.mp hm with h1 | h1
      · exact natCharsAux_no_newline f (n / 10) h1
      · rcases List.mem_cons.mp h1 with h2 | h2
        · exact digitChar_not_newline (n % 10) h2.symm
        · simp at h2

/-- Python decimal strings contain no newline. -/
theorem natStr_no_newline (n : Nat) : '\n' ∉ (natStr n).data :=
  natCharsAux_no_newline (n + 1) n

/-- Heading lines inherit newline-freeness from the title. -/
theorem headingOf_no_newline (i : Nat) (m : String) (hm : '\n' ∉ m.data) :
    '\n' ∉ (headingOf i m).data := by
  unfold headingOf
  simp only [String.data_append, List.mem_append]
  intro hmem
  rcases hmem with ((h | h) | h) | h
  · exact (by decide : '\n' ∉ ("## Module " : String).data) h
  · exact natStr_no_newline (i + 1) h
  · exact (by decide : '\n' ∉ (": " : String).data) h
  · exact hm h

/-- The character shape of one Markdown chunk followed by the rest. -/
theorem mdChunk_append_data (i : Nat) (m p rest : String) :
    (mdChunk i m p ++ rest).data
      = (headingOf i m).data ++ '\n' :: ('\n' :: (p.data ++ '\n' :: ('\n' :: rest.data))) := by
  have hnn : ("\n\n" : String).data = ['\n', '\n'] := rfl
  simp [mdChunk, headingOf, String.data_append, hnn, List.append_assoc]

/-- The line decomposition of the Markdown body. -/
theorem mdChunksFrom_lines : ∀ (lp : List (String × String)) (i : Nat),
    (∀ q ∈ lp, '\n' ∉ (Prod.fst q).data) →
    (splitLinesData (mdChunksFrom i lp).data).map (fun l => (⟨l⟩ : String)) = mdLinesFrom i lp
  | [], i, _ => rfl
  | (m, p) :: rest, i, h => by
    show (splitLinesData (mdChunk i m p ++ mdChunksFrom (i + 1) rest).data).map _ = _
    rw [mdChunk_append_data, splitLines_append,
      splitLines_single (headingOf i m).data
        (headingOf_no_newline i m (h (m, p) (List.mem_cons_self _ _))),
      splitLines_cons '\n' _, if_pos rfl, splitLines_append,
      splitLines_cons '\n' _, if_pos rfl]
    simp only [List.map_append, List.map_cons, List.singleton_append]
    rw [mdChunksFrom_lines rest (i + 1) (fun q hq => h q (List.mem_cons_of_mem _ hq))]
    rfl

/-- The header line never counts as a module heading. -/
theorem isHeadingLine_header (x y : String) : isHeadingLine ("# " ++ x ++ y) = false := rfl

/-- Chunk headings always count as module headings. -/
theorem isHeadingLine_headingOf (i : Nat) (m : String) : isHeadingLine (headingOf i m) = true := rfl

/-- Filtering the body lines for headings yields the headings in order. -/
theorem mdLinesFrom_filter : ∀ (lp : List (String × String)) (i : Nat),
    (∀ q ∈ lp, ∀ ln ∈ linesOf (Prod.snd q), isHeadingLine ln = false) →
    (mdLinesFrom i lp).filter isHeadingLine = headingsFrom i lp
  | [], i, _ => rfl
  | (m, p) :: rest, i, h => by
    show (headingOf i m :: "" :: (linesOf p ++ "" :: mdLinesFrom (i + 1) rest)).filter
        isHeadingLine = headingOf i m :: headingsFrom (i + 1) rest
    rw [List.filter_cons_of_pos (isHeadingLine_headingOf i m),
      List.filter_cons_of_neg (by decide), List.filter_append,
      List.filter_eq_nil_iff.mpr (fun ln hln => by
        rw [h (m, p) (List.mem_cons_self _ _) ln hln]
        simp),
      List.filter_cons_of_neg (by decide),
      mdLinesFrom_filter rest (i + 1) (fun q hq => h q (List.mem_cons_of_mem _ hq))]
    rfl

/-- One heading per entry. -/
theorem headingsFrom_length : ∀ (lp : List (String × String)) (i : Nat),
    (headingsFrom i lp).length = lp.length
  | [], _ => rfl
  | (m, p) :: rest, i => by
    show (headingsFrom i ((m, p) :: rest)).length = rest.length + 1
    unfold headingsFrom
    rw [List.length_cons, headingsFrom_length rest (i + 1)]

/-- Claim C3 counterexample: a plan text containing its own `"## "` line
makes the export contain two heading-initial lines for a one-module mapping,
so the unconditional claim fails. -/
theorem markdown_heading_counterexample :
    ((linesOf (markdownExport "S" [("M", "## sneaky")])).filter isHeadingLine).length = 2 ∧
    [("M", "## sneaky")].length = 1 := by
  constructor
  · decide
  · rfl

/-- Claim C3 (amended): provided the subject and the module titles contain no
newline and no line of any plan text begins with `"## "`, the Markdown export
decomposes into the header, a blank, and one chunk per entry — heading, blank,
the plan's own lines, blank — and its heading-initial lines are exactly one
per module, in mapping order, each heading introducing the chunk that carries
that module's plan text. -/
theorem markdown_headings_amended (s : String) (lp : List (String × String))
    (hs : '\n' ∉ s.data)
    (hm : ∀ q ∈ lp, '\n' ∉ (Prod.fst q).data)
    (hp : ∀ q ∈ lp, ∀ ln ∈ linesOf (Prod.snd q), isHeadingLine ln = false) :
    linesOf (markdownExport s lp)
      = ("# " ++ s ++ " Course Curriculum") :: "" :: mdLinesFrom 0 lp ∧
    (linesOf (markdownExport s lp)).filter isHeadingLine = headingsFrom 0 lp ∧
    ((linesOf (markdownExport s lp)).filter isHeadingLine).length = lp.length := by
  have hsnl : '\n' ∉ ("# " ++ s ++ " Course Curriculum").data := by
    simp only [String.data_append, List.mem_append]
    intro hmem
    rcases hmem with (h | h) | h
    · exact (by decide : '\n' ∉ ("# " : String).data) h
    · exact hs h
    · exact (by decide : '\n' ∉ (" Course Curriculum" : String).data) h
  have hdata : (markdownExport s lp).data
      = ("# " ++ s ++ " Course Curriculum").data ++ '\n' :: ('\n' :: (mdChunksFrom 0 lp).data) := by
    have hnn : ("\n\n" : String).data = ['\n', '\n'] := rfl
    simp [markdownExport, String.data_append, hnn, List.append_assoc]
  have hstruct : linesOf (markdownExport s lp)
      = ("# " ++ s ++ " Course Curriculum") :: "" :: mdLinesFrom 0 lp := by
    show (splitLinesData (markdownExport s lp).data).map _ = _
    rw [hdata, splitLines_append, splitLines_single _ hsnl, splitLines_cons '\n' _, if_pos rfl]
    simp only [List.map_append, List.map_cons, List.singleton_append]
    rw [mdChunksFrom_lines lp 0 hm]
  refine ⟨hstruct, ?_, ?_⟩
  · rw [hstruct, List.filter_cons_of_neg (by rw [isHeadingLine_header]; simp),
      List.filter_cons_of_neg (by decide), mdLinesFrom_filter lp 0 hp]
  · rw [hstruct, List.filter_cons_of_neg (by rw [isHeadingLine_header]; simp),
      List.filter_cons_of_neg (by decide), mdLinesFrom_filter lp 0 hp]
    exact headingsFrom_length lp 0

/-- Witness for the amended claim C3 at a concrete one-module mapping. -/
theorem markdown_headings_amended_witness :
    linesOf (markdownExport "ML" [("1. A", "plan A")])
      = ("# " ++ "ML" ++ " Course Curriculum") :: "" :: mdLinesFrom 0 [("1. A", "plan A")] ∧
    (linesOf (markdownExport "ML" [("1. A", "plan A")])).filter isHeadingLine
      = headingsFrom 0 [("1. A", "plan A")] ∧
    ((linesOf (markdownExport "ML" [("1. A", "plan A")])).filter isHeadingLine).length
      = [("1. A", "plan A")].length :=
  markdown_headings_amended "ML" [("1. A", "plan A")] (by decide) (by decide) (by decide)


/-- Reading back a hex digit recovers its value. -/
theorem hexVal_hexDigitChar (k : Nat) (h : k < 16) : hexVal (hexDigitChar k) = some k := by
  interval_cases k <;> decide

/-- Reading back four emitted hex digits recovers the code unit. -/
theorem hexQuad_hex4 (n : Nat) (h : n < 65536) :
    hexQuad (hexDigitChar (n / 4096 % 16)) (hexDigitChar (n / 256 % 16))
      (hexDigitChar (n / 16 % 16)) (hexDigitChar (n % 16)) = some n := by
  unfold hexQuad
  rw [hexVal_hexDigitChar _ (Nat.mod_lt _ (by norm_num)),
    hexVal_hexDigitChar _ (Nat.mod_lt _ (by norm_num)),
    hexVal_hexDigitChar _ (Nat.mod_lt _ (by norm_num)),
    hexVal_hexDigitChar _ (Nat.mod_lt _ (by norm_num))]
  show some _ = some n
  exact congrArg some (by omega)

/-- Every code point is either below the surrogate range or above it and
within the Unicode bound. -/
theorem char_valid_range (c : Char) :
    c.toNat < 0xd800 ∨ (0xdfff < c.toNat ∧ c.toNat < 0x110000) := c.valid

/-- Unfolding of the parser on an opaque non-quote, non-backslash character. -/
theorem parseStrBody_plain (c : Char) (X : List Char)
    (h1 : c ≠ '"') (h2 : c ≠ '\\') (h3 : ¬ c.toNat < 0x20) :
    parseStrBody (c :: X)
      = (match parseStrBody X with
          | some (s, r) => some (⟨c :: s.data⟩, r)
          | none => none) := by
  rw [parseStrBody.eq_def]
  split
  · rename_i heq
    simp at heq
  · rename_i heq
    exact absurd (List.cons.inj heq).1 h1
  · rename_i heq
    exact absurd (List.cons.inj heq).1 h2
  · rename_i heq
    exact absurd (List.cons.inj heq).1 h2
  · rename_i heq
    obtain ⟨hc, hX⟩ := List.cons.inj heq
    subst hc
    subst hX
    rw [if_neg h3]

/-- Unfolding of the parser on a scalar `\uXXXX` escape. -/
theorem parseStrBody_u_scalar (a b c d : Char) (n : Nat) (hq : hexQuad a b c d = some n)
    (hlo : ¬(0xd800 ≤ n ∧ n ≤ 0xdbff)) (hhi : ¬(0xdc00 ≤ n ∧ n ≤ 0xdfff)) (X : List Char) :
    parseStrBody ('\\' :: 'u' :: a :: b :: c :: d :: X)
      = (match parseStrBody X with
          | some (s, r) => some (⟨Char.ofNat n :: s.data⟩, r)
          | none => none) := by
  rw [parseStrBody.eq_def]
  split
  · rename_i heq
    simp at heq
  · rename_i heq
    exact absurd (List.cons.inj heq).1 (by decide)
  · rename_i heq
    obtain ⟨h1, heq⟩ := List.cons.inj heq
    obtain ⟨h2, heq⟩ := List.cons.inj heq
    obtain ⟨ha, heq⟩ := List.cons.inj heq
    obtain ⟨hb, heq⟩ := List.cons.inj heq
    obtain ⟨hc, heq⟩ := List.cons.inj heq
    obtain ⟨hd, hX⟩ := List.cons.inj heq
    subst ha
    subst hb
    subst hc
    subst hd
    subst hX
    simp only [hq]
    rw [if_neg hlo, if_neg hhi]
  · rename_i hnm heq
    obtain ⟨h1, heq⟩ := List.cons.inj heq
    obtain ⟨h2, hrest⟩ := List.cons.inj heq
    exact absurd (hnm a b c d X h2.symm hrest.symm) (fun f => f)
  · rename_i hnm2 heq
    obtain ⟨h1, hrest⟩ := List.cons.inj heq
    exact (hnm2 'u' (a :: b :: c :: d :: X) h1.symm hrest.symm).elim

/-- Unfolding of the parser on a surrogate-pair escape. -/
theorem parseStrBody_u_pair (a b c d a2 b2 c2 d2 : Char) (n n2 : Nat)
    (hq : hexQuad a b c d = some n) (hq2 : hexQuad a2 b2 c2 d2 = some n2)
    (hpair : 0xd800 ≤ n ∧ n ≤ 0xdbff) (hlo2 : 0xdc00 ≤ n2 ∧ n2 ≤ 0xdfff) (X : List Char) :
    parseStrBody ('\\' :: 'u' :: a :: b :: c :: d :: '\\' :: 'u' :: a2 :: b2 :: c2 :: d2 :: X)
      = (match parseStrBody X with
          | some (s, r) =>
            some (⟨Char.ofNat (0x10000 + (n - 0xd800) * 1024 + (n2 - 0xdc00)) :: s.data⟩, r)
          | none => none) := by
  rw [parseStrBody.eq_def]
  split
  · rename_i heq
    simp at heq
  · rename_i heq
    exact absurd (List.cons.inj heq).1 (by decide)
  · rename_i heq
    obtain ⟨h1, heq⟩ := List.cons.inj heq
    obtain ⟨h2, heq⟩ := List.cons.inj heq
    obtain ⟨ha, heq⟩ := List.cons.inj heq
    obtain ⟨hb, heq⟩ := List.cons.inj heq
    obtain ⟨hc, heq⟩ := List.cons.inj heq
    obtain ⟨hd, hX⟩ := List.cons.inj heq
    subst ha
    subst hb
    subst hc
    subst hd
    subst hX
    simp only [hq]
    rw [if_pos hpair]
    simp only [hq2]
    rw [if_pos hlo2]
  · rename_i hnm heq
    obtain ⟨h1, heq⟩ := List.cons.inj heq
    obtain ⟨h2, hrest⟩ := List.cons.inj heq
    exact absurd (hnm a b c d ('\\' :: 'u' :: a2 :: b2 :: c2 :: d2 :: X) h2.symm hrest.symm)
      (fun f => f)
  · rename_i hnm2 heq
    obtain ⟨h1, hrest⟩ := List.cons.inj heq
    exact (hnm2 'u' (a :: b :: c :: d :: '\\' :: 'u' :: a2 :: b2 :: c2 :: d2 :: X)
      h1.symm hrest.symm).elim

/-- Parsing the escape of one character consumes the escape and produces the
character. -/
theorem parseStrBody_escapeChar (c : Char) (X : List Char) :
    parseStrBody (escapeChar c ++ X)
      = (match parseStrBody X with
          | some (s, r) => some (⟨c :: s.data⟩, r)
          | none => none) := by
  unfold escapeChar
  by_cases h1 : c = '"'
  · rw [if_pos h1]
    subst h1
    rfl
  rw [if_neg h1]
  by_cases h2 : c = '\\'
  · rw [if_pos h2]
    subst h2
    rfl
  rw [if_neg h2]
  by_cases h3 : c = '\n'
  · rw [if_pos h3]
    subst h3
    rfl
  rw [if_neg h3]
  by_cases h4 : c = '\r'
  · rw [if_pos h4]
    subst h4
    rfl
  rw [if_neg h4]
  by_cases h5 : c = '\t'
  · rw [if_pos h5]
    subst h5
    rfl
  rw [if_neg h5]
  by_cases h6 : c.toNat = 8
  · rw [if_pos h6]
    have hc : c = '\x08' := by
      rw [← Char.ofNat_toNat c, h6]
    subst hc
    rfl
  rw [if_neg h6]
  by_cases h7 : c.toNat = 12
  · rw [if_pos h7]
    have hc : c = '\x0c' := by
      rw [← Char.ofNat_toNat c, h7]
    subst hc
    rfl
  rw [if_neg h7]
  by_cases h8 : 0x20 ≤ c.toNat ∧ c.toNat ≤ 0x7e
  · rw [if_pos h8]
    show parseStrBody (c :: X) = _
    exact parseStrBody_plain c X h1 h2 (by omega)
  rw [if_neg h8]
  by_cases h9 : c.toNat < 0x10000
  · rw [if_pos h9]
    show parseStrBody ('\\' :: 'u' :: hexDigitChar (c.toNat / 4096 % 16) ::
      hexDigitChar (c.toNat / 256 % 16) :: hexDigitChar (c.toNat / 16 % 16) ::
      hexDigitChar (c.toNat % 16) :: X) = _
    have hnosur : ¬(0xd800 ≤ c.toNat ∧ c.toNat ≤ 0xdbff) := by
      rcases char_valid_range c with hv | hv <;> omega
    have hnosur2 : ¬(0xdc00 ≤ c.toNat ∧ c.toNat ≤ 0xdfff) := by
      rcases char_valid_range c with hv | hv <;> omega
    rw [parseStrBody_u_scalar _ _ _ _ c.toNat (hexQuad_hex4 c.toNat h9) hnosur hnosur2 X]
    simp only [Char.ofNat_toNat]
  · rw [if_neg h9]
    have hv : c.toNat < 0x110000 := by
      rcases char_valid_range c with hv | hv
      · omega
      · exact hv.2
    show parseStrBody ('\\' :: 'u' ::
      hexDigitChar ((0xd800 + (c.toNat - 0x10000) / 1024) / 4096 % 16) ::
      hexDigitChar ((0xd800 + (c.toNat - 0x10000) / 1024) / 256 % 16) ::
      hexDigitChar ((0xd800 + (c.toNat - 0x10000) / 1024) / 16 % 16) ::
      hexDigitChar ((0xd800 + (c.toNat - 0x10000) / 1024) % 16) :: '\\' :: 'u' ::
      hexDigitChar ((0xdc00 + (c.toNat - 0x10000) % 1024) / 4096 % 16) ::
      hexDigitChar ((0xdc00 + (c.toNat - 0x10000) % 1024) / 256 % 16) ::
      hexDigitChar ((0xdc00 + (c.toNat - 0x10000) % 1024) / 16 % 16) ::
      hexDigitChar ((0xdc00 + (c.toNat - 0x10000) % 1024) % 16) :: X) = _
    rw [parseStrBody_u_pair _ _ _ _ _ _ _ _
      (0xd800 + (c.toNat - 0x10000) / 1024) (0xdc00 + (c.toNat - 0x10000) % 1024)
      (hexQuad_hex4 _ (by omega)) (hexQuad_hex4 _ (by omega))
      (by constructor <;> omega) (by constructor <;> omega) X]
    simp only [show 0x10000 + (0xd800 + (c.toNat - 0x10000) / 1024 - 0xd800) * 1024 +
      (0xdc00 + (c.toNat - 0x10000) % 1024 - 0xdc00) = c.toNat from by omega, Char.ofNat_toNat]

/-- Round trip of a whole escaped string body up to the closing quote. -/
theorem parseStrBody_escapeData : ∀ (l : List Char) (rest : List Char),
    parseStrBody (escapeData l ++ '"' :: rest) = some (⟨l⟩, rest)
  | [], rest => rfl
  | c :: l, rest => by
    show parseStrBody ((escapeChar c ++ escapeData l) ++ '"' :: rest) = _
    rw [List.append_assoc, parseStrBody_escapeChar, parseStrBody_escapeData l rest]

/-- Parsing a rendered string body consumes it up to the closing quote. -/
theorem parse_jstr_tail (s : String) (rest : List Char) :
    parseStrBody ((escapeData s.data ++ ['"']) ++ rest) = some (s, rest) := by
  rw [List.append_assoc, List.singleton_append, parseStrBody_escapeData]

/-- One-step unfolding of the value parser. -/
theorem parseVal_succ (f : Nat) (cs : List Char) :
    parseVal (f + 1) cs =
      (match skipWs cs with
        | '"' :: rest =>
          match parseStrBody rest with
          | some (s, r) => some (JVal.jstr s, r)
          | none => none
        | '\x7b' :: rest =>
          match skipWs rest with
          | '\x7d' :: r => some (JVal.jobj [], r)
          | _ => parseMembers f rest []
        | '[' :: rest =>
          match skipWs rest with
          | ']' :: r => some (JVal.jarr [], r)
          | _ => parseElems f rest []
        | 't' :: 'r' :: 'u' :: 'e' :: r => some (JVal.jbool true, r)
        | 'f' :: 'a' :: 'l' :: 's' :: 'e' :: r => some (JVal.jbool false, r)
        | 'n' :: 'u' :: 'l' :: 'l' :: r => some (JVal.jnull, r)
        | other => parseIntLit other) := by
  rw [parseVal.eq_def]

/-- One-step unfolding of the object-member parser. -/
theorem parseMembers_succ (f : Nat) (cs : List Char) (acc : List (String × JVal)) :
    parseMembers (f + 1) cs acc =
      (match skipWs cs with
        | '"' :: rest =>
          match parseStrBody rest with
          | none => none
          | some (key, r1) =>
            match skipWs r1 with
            | ':' :: r2 =>
              match parseVal f r2 with
              | none => none
              | some (v, r3) =>
                match skipWs r3 with
                | ',' :: r4 => parseMembers f r4 (acc ++ [(key, v)])
                | '\x7d' :: r4 => some (JVal.jobj (acc ++ [(key, v)]), r4)
                | _ => none
            | _ => none
        | _ => none) := by
  rw [parseMembers.eq_def]

/-- One-step unfolding of the array-element parser. -/
theorem parseElems_succ (f : Nat) (cs : List Char) (acc : List JVal) :
    parseElems (f + 1) cs acc =
      (match parseVal f cs with
        | none => none
        | some (v, r1) =>
          match skipWs r1 with
          | ',' :: r2 => parseElems f r2 (acc ++ [v])
          | ']' :: r2 => some (JVal.jarr (acc ++ [v]), r2)
          | _ => none) := by
  rw [parseElems.eq_def]

/-- Whitespace-skipping computation rules for the layout characters. -/
theorem skipWs_nl (cs : List Char) : skipWs ('\n' :: cs) = skipWs cs := rfl

/-- Skipping a space. -/
theorem skipWs_sp (cs : List Char) : skipWs (' ' :: cs) = skipWs cs := rfl

/-- Skipping an indentation run. -/
theorem skipWs_spaces : ∀ (n : Nat) (cs : List Char), skipWs (spacesData n ++ cs) = skipWs cs
  | 0, _ => rfl
  | n + 1, cs => skipWs_spaces n cs

/-- An opening brace stops the skip. -/
theorem skipWs_lbrace (cs : List Char) : skipWs ('\x7b' :: cs) = '\x7b' :: cs := rfl

/-- A closing brace stops the skip. -/
theorem skipWs_rbrace (cs : List Char) : skipWs ('\x7d' :: cs) = '\x7d' :: cs := rfl

/-- An opening bracket stops the skip. -/
theorem skipWs_lbrack (cs : List Char) : skipWs ('[' :: cs) = '[' :: cs := rfl

/-- A closing bracket stops the skip. -/
theorem skipWs_rbrack (cs : List Char) : skipWs (']' :: cs) = ']' :: cs := rfl

/-- A quote stops the skip. -/
theorem skipWs_quote (cs : List Char) : skipWs ('"' :: cs) = '"' :: cs := rfl

/-- A colon stops the skip. -/
theorem skipWs_colon (cs : List Char) : skipWs (':' :: cs) = ':' :: cs := rfl

/-- A comma stops the skip. -/
theorem skipWs_comma (cs : List Char) : skipWs (',' :: cs) = ',' :: cs := rfl

/-- Rebuilding a string from its character data is the identity. -/
theorem string_eta (s : String) : (⟨s.data⟩ : String) = s := rfl

/-- Parsing a rendered string value after one leading space. -/
theorem parseVal_jstr (f : Nat) (s : String) (rest : List Char) :
    parseVal (f + 1) (' ' :: (jstrData s ++ rest)) = some (JVal.jstr s, rest) := by
  show (match parseStrBody ((escapeData s.data ++ ['"']) ++ rest) with
        | some (t, r) => some (JVal.jstr t, r)
        | none => none) = _
  rw [parse_jstr_tail]

set_option maxHeartbeats 4000000 in
/-- Parsing one printed module object at indent 4. -/
theorem parseVal_module (f : Nat) (m p : String) (rest : List Char) :
    parseVal (f + 4) ('\n' :: (spacesData 4 ++ (moduleData m p ++ rest)))
      = some (JVal.jobj [("title", JVal.jstr m), ("lesson_plan", JVal.jstr p)], rest) := by
  rw [show f + 4 = (f + 3) + 1 from rfl]
  simp only [moduleData, List.cons_append, List.singleton_append, List.append_assoc,
    List.nil_append, jstrData, parseVal_succ, parseMembers_succ, skipWs_nl, skipWs_sp,
    skipWs_spaces, skipWs_lbrace, skipWs_rbrace, skipWs_quote, skipWs_colon, skipWs_comma,
    parseStrBody_escapeData, string_eta]
  rfl

/-- Parsing the chain of printed modules after the first opening layout:
one object, then either the separator and the rest or the closing bracket. -/
theorem parseElems_chain : ∀ (xs : List (String × String)) (m p : String) (f : Nat)
    (acc : List JVal) (rest : List Char),
    parseElems (f + xs.length + 5)
        ('\n' :: (spacesData 4 ++ (moduleData m p ++ (sepTailData xs ++
          ('\n' :: (spacesData 2 ++ (']' :: rest))))))) acc
      = some (JVal.jarr (acc ++ jmodVal (m, p) :: xs.map jmodVal), rest)
  | [], m, p, f, acc, rest => by
    rw [show f + ([] : List (String × String)).length + 5 = (f + 4) + 1 from by simp,
      parseElems_succ]
    simp only [sepTailData, List.nil_append]
    rw [parseVal_module f m p]
    simp only [skipWs_nl, skipWs_spaces, skipWs_rbrack]
    rfl
  | (m2, p2) :: xs, m, p, f, acc, rest => by
    rw [show f + ((m2, p2) :: xs).length + 5 = ((f + 1) + xs.length + 4) + 1 from by
        simp [List.length_cons]; omega,
      parseElems_succ]
    simp only [sepTailData, List.cons_append, List.append_assoc, List.singleton_append,
      List.nil_append]
    rw [parseVal_module ((f + 1) + xs.length) m p]
    simp only [skipWs_comma]
    rw [show (f + 1) + xs.length + 4 = f + xs.length + 5 from by omega,
      show (JVal.jobj [("title", JVal.jstr m), ("lesson_plan", JVal.jstr p)])
        = jmodVal (m, p) from rfl,
      parseElems_chain xs m2 p2 f (acc ++ [jmodVal (m, p)]) rest]
    simp [List.append_assoc]

/-- Parsing the printed `"modules"` value. -/
theorem parseVal_modules (f : Nat) (lp : List (String × String)) (rest : List Char) :
    parseVal (f + lp.length + 6) (' ' :: (modulesData lp ++ rest))
      = some (JVal.jarr (lp.map jmodVal), rest) := by
  cases lp with
  | nil => rfl
  | cons q xs =>
    obtain ⟨m2, p2⟩ := q
    rw [show f + ((m2, p2) :: xs).length + 6 = ((f + 1) + xs.length + 5) + 1 from by
        simp [List.length_cons]; omega,
      parseVal_succ]
    simp only [modulesData, sepByData, List.cons_append, List.append_assoc,
      List.singleton_append, List.nil_append, skipWs_sp, skipWs_lbrack]
    rw [parseElems_chain xs m2 p2 (f + 1) [] rest]
    simp only [List.nil_append, List.map_cons]
    rfl

/-- Parsing a rendered string value in unfolded shape. -/
theorem parseVal_jstr2 (f : Nat) (s : String) (tail : List Char) :
    parseVal (f + 1) (' ' :: '"' :: (escapeData s.data ++ '"' :: tail))
      = some (JVal.jstr s, tail) := by
  show (match parseStrBody (escapeData s.data ++ '"' :: tail) with
        | some (t, r) => some (JVal.jstr t, r)
        | none => none) = _
  rw [parseStrBody_escapeData]

/-- Parsing one printed string-valued member at indent 2. -/
theorem parseMembers_strMember (f : Nat) (key val : String) (tail : List Char)
    (acc : List (String × JVal)) :
    parseMembers (f + 2) ('\n' :: (spacesData 2 ++ (jstrData key ++ (':' :: ' ' ::
        (jstrData val ++ tail))))) acc
      = (match skipWs tail with
          | ',' :: r4 => parseMembers (f + 1) r4 (acc ++ [(key, JVal.jstr val)])
          | '\x7d' :: r4 => some (JVal.jobj (acc ++ [(key, JVal.jstr val)]), r4)
          | _ => none) := by
  rw [show f + 2 = (f + 1) + 1 from rfl, parseMembers_succ]
  simp only [jstrData, List.cons_append, List.append_assoc, List.singleton_append,
    List.nil_append, skipWs_nl, skipWs_spaces, skipWs_quote, skipWs_colon,
    parseStrBody_escapeData, string_eta, parseVal_jstr2]

set_option maxHeartbeats 4000000 in
/-- Parsing the whole printed course object. -/
theorem parseVal_course (f : Nat) (subject : String) (lp : List (String × String))
    (rest : List Char) :
    parseVal (f + lp.length + 9) (courseData subject lp ++ rest)
      = some (courseJVal subject lp, rest) := by
  rw [show f + lp.length + 9 = ((f + lp.length + 6) + 2) + 1 from by omega, parseVal_succ]
  simp only [courseData, List.cons_append, List.append_assoc, List.singleton_append,
    List.nil_append, skipWs_lbrace]
  rw [parseMembers_strMember (f + lp.length + 6) "subject" subject _ []]
  simp only [skipWs_comma]
  rw [show (f + lp.length + 6) + 1 = (f + lp.length + 5) + 1 + 1 from by omega]
  rw [parseMembers_succ]
  simp only [jstrData, List.cons_append, List.append_assoc, List.singleton_append,
    List.nil_append, skipWs_nl, skipWs_spaces, skipWs_quote, skipWs_colon,
    parseStrBody_escapeData, string_eta]
  rw [show (f + lp.length + 5) + 1 = f + lp.length + 6 from by omega]
  rw [parseVal_modules f lp ('\n' :: '\x7d' :: rest)]
  simp only [skipWs_nl, skipWs_rbrace, List.nil_append]
  rfl

/-- The separator chain is at least one character per entry. -/
theorem sepTailData_length : ∀ xs : List (String × String), xs.length ≤ (sepTailData xs).length
  | [] => Nat.zero_le _
  | (m, p) :: xs => by
    have h := sepTailData_length xs
    simp only [sepTailData, List.length_append, List.length_cons, spacesData,
      List.length_replicate]
    omega

/-- The printed course is long enough to fuel its own parse. -/
theorem courseData_length (subject : String) (lp : List (String × String)) :
    lp.length + 8 ≤ (courseData subject lp).length := by
  cases lp with
  | nil =>
    simp [courseData, modulesData, jstrData, spacesData, List.length_append,
      List.length_replicate]
    omega
  | cons q xs =>
    obtain ⟨m2, p2⟩ := q
    have h := sepTailData_length xs
    simp only [courseData, modulesData, sepByData, jstrData, spacesData, moduleData,
      List.length_append, List.length_cons, List.length_replicate, List.length_nil]
    omega

/-- Model of `json.loads` applied to the model of
`json.dumps(course_data, indent=2)` recovers the course value. -/
theorem jsonLoads_dumps (subject : String) (lp : List (String × String)) :
    jsonLoads (jsonDumpsCourse subject lp) = some (courseJVal subject lp) := by
  obtain ⟨g, hg⟩ : ∃ g, (courseData subject lp).length + 1 = g + lp.length + 9 :=
    ⟨(courseData subject lp).length + 1 - (lp.length + 9), by
      have h := courseData_length subject lp
      omega⟩
  show (match parseVal ((courseData subject lp).length + 1) (courseData subject lp) with
        | some (v, r) => if (skipWs r).isEmpty then some v else none
        | none => none) = _
  rw [hg, show courseData subject lp = courseData subject lp ++ [] from
      (List.append_nil _).symm, parseVal_course g subject lp []]
  rfl

/-- Reading the printed module values back element by element. -/
theorem modulesOfJList_map : ∀ lp : List (String × String),
    modulesOfJList (lp.map jmodVal) = some lp
  | [] => rfl
  | q :: lp => by
    show (match moduleOfJVal (jmodVal q), modulesOfJList (lp.map jmodVal) with
          | some q', some qs => some (q' :: qs)
          | _, _ => none) = _
    rw [modulesOfJList_map lp]
    rfl

/-- Claim C4: JSON export round-trips: parsing the serialized course object
recovers exactly the original mapping — the same number of entries with the
same titles and lesson-plan texts — and the subject. -/
theorem json_roundtrip (subject : String) (lp : List (String × String)) :
    (jsonLoads (jsonDumpsCourse subject lp)).bind extractModules = some lp ∧
    (jsonLoads (jsonDumpsCourse subject lp)).bind extractSubject = some subject := by
  rw [jsonLoads_dumps]
  constructor
  · show extractModules (courseJVal subject lp) = some lp
    show modulesOfJList (lp.map jmodVal) = some lp
    exact modulesOfJList_map lp
  · rfl
